import Mathlib

/-!
Verification development for a Kademlia-style distributed key-value store.

The definitions below are a shallow embedding of the Rust sources under
`src/`: structures mirror the Rust structs field by field, and functions
mirror the bodies of the corresponding Rust functions statement by
statement.  Machine integers (`u64`, `usize`, `u16`) are modelled as `Nat`
(no arithmetic here comes near overflow), byte vectors as `List Nat`,
wall-clock time (`helpers::now`) as an explicit `Nat` parameter, and
external effects (the bincode codec, the network) as explicit function
parameters or outcome values.
-/

namespace Dht

/-- Modelled from the spec: the file defining `NodeId` (`dht/node.rs`) is not
under `src/`; per the spec a `NodeId` is a 20-byte identifier compared
bytewise (its derivation by hashing a seed is irrelevant to the claims). -/
structure NodeId where
  bytes : List Nat
deriving DecidableEq, Repr

/-- Model of `std::net::SocketAddr`: only construction and structural
equality are used by the embedded code, so an ip/port pair suffices. -/
structure SocketAddr where
  ip : List Nat
  port : Nat
deriving DecidableEq, Repr

/-- Mirrors `PeerInfo` from `src/src/dht/peer.rs`. -/
structure PeerInfo where
  id : NodeId
  addr : SocketAddr
  last_seen : Nat
deriving DecidableEq, Repr

/-- The equality test generated by `#[derive(PartialEq)]` on `PeerInfo`
(`src/src/dht/peer.rs`): the derive compares every field. -/
def PeerInfo.eq (p q : PeerInfo) : Bool :=
  decide (p.id = q.id) && decide (p.addr = q.addr) && decide (p.last_seen = q.last_seen)

/-- Mirrors `KBucket` from `src/src/dht/kbucket.rs`. -/
structure KBucket where
  peers : List PeerInfo
  max_size : Nat
deriving DecidableEq, Repr

/-- Mirrors `KBucket::update_peer`: `retain` keeps the entries whose id
differs from the incoming peer's id, then the peer is pushed onto the end
of the vector unless the retained length has already reached `max_size`. -/
def KBucket.update_peer (b : KBucket) (peer : PeerInfo) : KBucket :=
  let kept := b.peers.filter (fun p => p.id ≠ peer.id)
  if b.max_size ≤ kept.length then
    KBucket.mk kept b.max_size
  else
    KBucket.mk (kept ++ [peer]) b.max_size

/-- Mirrors `KBucket::get_peers`: clones the peer vector in its stored
order (index 0 of the Rust `Vec` is the head of the list). -/
def KBucket.get_peers (b : KBucket) : List PeerInfo :=
  b.peers

/-- Mirrors `KBucket::len`. -/
def KBucket.len (b : KBucket) : Nat :=
  b.peers.length

/-- The ids present in a bucket, in order. -/
def KBucket.ids (b : KBucket) : List NodeId :=
  b.peers.map (fun p => p.id)

/-- Mirrors `StoredValue` from `src/src/dht/storage.rs`. -/
structure StoredValue where
  data : List Nat
  version : Nat
  last_node : SocketAddr
  is_replica : Bool
  expiration : Option Nat
  original_nodes : List SocketAddr
deriving DecidableEq, Repr

/-- Mirrors `StoredValue::is_valid`:
`self.expiration.map_or(true, |e| e > current_time)`. -/
def StoredValue.is_valid (v : StoredValue) (current_time : Nat) : Bool :=
  match v.expiration with
  | none => true
  | some e => decide (current_time < e)

/-- Mirrors `create_stored_value` from `src/src/dht/storage.rs`.  The Rust
body reads the wall clock through `helpers::now()`; the embedding passes the
clock value `now` explicitly (the body calls `now()` twice, for `version`
and inside `ttl.map`; both reads are modelled by the same instant). -/
def create_stored_value (now : Nat) (data : List Nat) (addr : SocketAddr)
    (is_replica : Bool) (ttl : Option Nat) : StoredValue :=
  StoredValue.mk data now addr is_replica (ttl.map (fun t => now + t))
    (if is_replica then [] else [addr])

/-- Keys and blob values are byte vectors. -/
abbrev Bytes := List Nat

/-- Model of the node's storage map (`node.storage`): an association list
from keys to the serialized bytes of stored values. -/
abbrev Storage := List (Bytes × Bytes)

/-- Mirrors `storage.get(&key)`. -/
def Storage.get (s : Storage) (key : Bytes) : Option Bytes :=
  (s.find? (fun e => e.1 = key)).map (fun e => e.2)

/-- Mirrors `storage.remove(&key)`. -/
def Storage.remove (s : Storage) (key : Bytes) : Storage :=
  s.filter (fun e => e.1 ≠ key)

/-- Mirrors `find_in_local_storage` from `src/src/dht/storage.rs`.  The
bincode decoder `deserialize_value` (an external crate call returning
`Result`) is modelled by the parameter `des`, and `helpers::now()` by the
parameter `now`.  The function returns the updated storage together with
the updated `found_values` vector (`Vec::push` appends at the end). -/
def find_in_local_storage (des : Bytes → Option StoredValue) (now : Nat)
    (storage : Storage) (found_values : List StoredValue) (key : Bytes) :
    Storage × List StoredValue :=
  match storage.get key with
  | none => (storage, found_values)
  | some value =>
    match des value with
    | none => (storage, found_values)
    | some stored =>
      if stored.is_valid now then (storage, found_values ++ [stored])
      else (Storage.remove storage key, found_values)

/-- Mirrors the `DhtRpc` enum from `src/src/dht/rpc/mod.rs`. -/
inductive DhtRpc where
  | Ping
  | Pong
  | FindNode (id : NodeId)
  | FindNodeResponse (peers : List PeerInfo)
  | FindValue (key : Bytes)
  | FindValueResponse (data : Option Bytes)
  | Store (key : Bytes) (value : Bytes)
deriving DecidableEq, Repr

/-- Outcome of `timeout(operation_timeout, node.send_rpc(peer, Store(..)))`
as matched in `send_store_rpc` (`src/src/dht/rpc/utils.rs`): the RPC
succeeded (`Ok(Ok(_))`), failed (`Ok(Err(e))`), or timed out (`Err(_)`). -/
inductive StoreRpcOutcome where
  | ok
  | rpcErr
  | timedOut
deriving DecidableEq, Repr

/-- Mirrors `send_store_rpc` from `src/src/dht/rpc/utils.rs`, with the
network outcome passed in and the `rpc_failures` counter threaded
explicitly; returns the new counter value and whether the result was `Ok`. -/
def send_store_rpc (outcome : StoreRpcOutcome) (rpc_failures : Nat) : Nat × Bool :=
  match outcome with
  | StoreRpcOutcome.ok => (rpc_failures, true)
  | StoreRpcOutcome.rpcErr => (rpc_failures + 1, false)
  | StoreRpcOutcome.timedOut => (rpc_failures + 1, false)

/-- Mirrors `DhtNode::replicate_to_peers_store` from
`src/src/dht/replication.rs`: iterate over the selected peers; a peer whose
address equals `self.addr` bumps `successes` and is skipped; otherwise
`send_store_rpc` runs and `successes` is bumped when it returns `Ok`.  The
network is modelled by `outcome`, mapping a peer address to its
`StoreRpcOutcome`; the function returns `(successes, rpc_failures)`. -/
def replicate_to_peers_store (self_addr : SocketAddr)
    (outcome : SocketAddr → StoreRpcOutcome) (peers : List PeerInfo)
    (successes rpc_failures : Nat) : Nat × Nat :=
  match peers with
  | [] => (successes, rpc_failures)
  | p :: rest =>
    if p.addr = self_addr then
      replicate_to_peers_store self_addr outcome rest (successes + 1) rpc_failures
    else
      let r := send_store_rpc (outcome p.addr) rpc_failures
      replicate_to_peers_store self_addr outcome rest
        (if r.2 then successes + 1 else successes) r.1

/-- Result of `node.send_rpc(addr, FindValue(key))` as matched in
`send_find_rpc`: either a response message or an error. -/
abbrev FindRpcResult := Except Unit DhtRpc

/-- Mirrors `send_find_rpc` from `src/src/dht/rpc/utils.rs`: an
`Ok(FindValueResponse(Some(data)))` pushes the deserialized value onto
`found_values` when it decodes and `is_valid(now)` holds; any other `Ok`
response does nothing; an `Err` bumps `rpc_failures` and propagates the
error.  Returns the new `found_values`, the new counter, and the
`Result<(), _>` of the call. -/
def send_find_rpc (des : Bytes → Option StoredValue) (now : Nat)
    (response : FindRpcResult) (found_values : List StoredValue)
    (rpc_failures : Nat) : List StoredValue × Nat × Except Unit Unit :=
  match response with
  | Except.ok (DhtRpc.FindValueResponse (some data)) =>
    match des data with
    | some stored =>
      if stored.is_valid now then (found_values ++ [stored], rpc_failures, Except.ok ())
      else (found_values, rpc_failures, Except.ok ())
    | none => (found_values, rpc_failures, Except.ok ())
  | Except.ok _ => (found_values, rpc_failures, Except.ok ())
  | Except.error _ => (found_values, rpc_failures + 1, Except.error ())

/-- Model of a `tokio::net::TcpStream` held by the pool.  The stream itself
is opaque; `sid` is its identity and `healthy` abstracts the liveness
heuristic `stream.peer_addr().is_ok()` (a stream left in an indeterminate
state, e.g. after an RPC timeout, is one with `healthy = false`). -/
structure TcpStream where
  sid : Nat
  healthy : Bool
deriving DecidableEq, Repr

/-- Mirrors `ConnectionEntry` from `src/src/dht/connection/mod.rs`, with
`Instant` modelled as a `Nat` timestamp. -/
structure ConnectionEntry where
  stream : TcpStream
  last_used : Nat
deriving DecidableEq, Repr

/-- Model of the pool's idle map `HashMap<SocketAddr, Vec<ConnectionEntry>>`:
an association list from addresses to idle-entry vectors (index 0 of the
Rust `Vec` is the head of the list; `Vec::push`/`Vec::pop` act on the end). -/
abbrev IdleMap := List (SocketAddr × List ConnectionEntry)

/-- The idle vector stored for an address (`pool.get(&addr)`, empty when
the address is absent from the map). -/
def IdleMap.entries (m : IdleMap) (addr : SocketAddr) : List ConnectionEntry :=
  match m.find? (fun e => e.1 = addr) with
  | some e => e.2
  | none => []

/-- Point update of the idle map (`pool.entry(addr).or_insert_with(..)`
followed by mutation of that vector). -/
def IdleMap.setEntries (m : IdleMap) (addr : SocketAddr)
    (es : List ConnectionEntry) : IdleMap :=
  (addr, es) :: m.filter (fun e => e.1 ≠ addr)

/-- Mirrors `ConnectionPool::return_connection`
(`src/src/dht/connection/mod.rs`): unconditionally push the stream onto the
end of the idle vector for `addr` with `last_used` set to the current
instant (the `set_nodelay(false)` call does not affect the pool state). -/
def return_connection (m : IdleMap) (now : Nat) (addr : SocketAddr)
    (stream : TcpStream) : IdleMap :=
  IdleMap.setEntries m addr (IdleMap.entries m addr ++ [ConnectionEntry.mk stream now])

/-- Mirrors `PooledConnectionInner` from `src/src/dht/connection/pooled.rs`
(the pool handle and the semaphore permit are tracked separately). -/
structure PooledConnectionInner where
  stream : TcpStream
  addr : SocketAddr
deriving DecidableEq, Repr

/-- Mirrors `PooledConnection`: `inner` is `None` after the connection has
been taken out (e.g. by the commented-out `close`). -/
structure PooledConnection where
  inner : Option PooledConnectionInner
deriving DecidableEq, Repr

/-- Mirrors `impl Drop for PooledConnection`
(`src/src/dht/connection/pooled.rs`): when `inner` is still present, the
spawned task calls `pool.return_connection(addr, stream)`; the effect on
the idle map is returned. -/
def PooledConnection.drop (c : PooledConnection) (m : IdleMap) (now : Nat) : IdleMap :=
  match c.inner with
  | none => m
  | some inner => return_connection m now inner.addr inner.stream

/-- The pop loop of `ConnectionPool::try_get_healthy_connection`, on the
reversed idle vector (`Vec::pop` takes from the end): pop entries until one
is fresh (`last_used.elapsed() < max_idle_time`) and alive
(`stream.peer_addr().is_ok()`); popped entries that fail the test are
discarded.  Returns the chosen entry, if any, and the reversed remainder
of the vector. -/
def pop_healthy_rev (now max_idle : Nat) :
    List ConnectionEntry → Option ConnectionEntry × List ConnectionEntry
  | [] => (none, [])
  | e :: rest =>
    if now - e.last_used < max_idle && e.stream.healthy then (some e, rest)
    else pop_healthy_rev now max_idle rest

/-- Mirrors `ConnectionPool::try_get_healthy_connection` restricted to one
address's idle vector: the entry handed out, if any, and the vector left in
the map. -/
def try_get_healthy_connection (now max_idle : Nat)
    (entries : List ConnectionEntry) : Option ConnectionEntry × List ConnectionEntry :=
  let r := pop_healthy_rev now max_idle entries.reverse
  (r.1, r.2.reverse)

/-- State of the pool's single counting semaphore together with the
multiset of live `PooledConnection`s (each holds one `OwnedSemaphorePermit`):
`available` is the number of free permits and `outstanding` lists the
remote address of every live connection. -/
structure PoolSt where
  available : Nat
  outstanding : List SocketAddr
deriving DecidableEq, Repr

/-- Mirrors `ConnectionPool::new(max_connections_per_peer, ..)`: the pool
holds ONE semaphore, `Semaphore::new(max_connections_per_peer)`, shared by
all destination addresses; no connection is outstanding initially. -/
def ConnectionPool.init (max_connections_per_peer : Nat) : PoolSt :=
  PoolSt.mk max_connections_per_peer []

/-- The pool's semaphore discipline, from `get_connection` /
`try_get_healthy_connection` / `Drop for PooledConnection`: every
acquisition path (fresh connect or reuse of an idle stream) first obtains a
permit from the shared semaphore, and dropping a `PooledConnection`
releases its permit.  `acquire` is enabled only when a permit is free. -/
inductive PoolStep : PoolSt → PoolSt → Prop
  | acquire (a : SocketAddr) (s : PoolSt) (h : 0 < s.available) :
      PoolStep s (PoolSt.mk (s.available - 1) (a :: s.outstanding))
  | release (a : SocketAddr) (s : PoolSt) (h : a ∈ s.outstanding) :
      PoolStep s (PoolSt.mk (s.available + 1) (s.outstanding.erase a))

/-- Pool states reachable from a fresh pool with `n` permits. -/
def PoolReachable (n : Nat) (s : PoolSt) : Prop :=
  Relation.ReflTransGen PoolStep (ConnectionPool.init n) s

/-! Concrete sample values used by witnesses and counterexamples. -/

/-- A sample address (the spec's node A, `127.0.0.1:8091`). -/
def sampleAddr1 : SocketAddr := SocketAddr.mk [127, 0, 0, 1] 8091

/-- A sample address (the spec's node B, `127.0.0.1:8092`). -/
def sampleAddr2 : SocketAddr := SocketAddr.mk [127, 0, 0, 1] 8092

/-- A sample peer with id byte `1`. -/
def samplePeer1 : PeerInfo := PeerInfo.mk (NodeId.mk [1]) sampleAddr1 0

/-- A sample peer with id byte `2`. -/
def samplePeer2 : PeerInfo := PeerInfo.mk (NodeId.mk [2]) sampleAddr2 0

/-- A sample peer with id byte `3`. -/
def samplePeer3 : PeerInfo := PeerInfo.mk (NodeId.mk [3]) (SocketAddr.mk [10, 0, 0, 3] 9003) 7

/-! Theorems settling the claims. -/

/-- C8: for every `StoredValue` `v` and time `t`, `v.is_valid t` is true iff
`v.expiration` is absent or greater than `t`; in particular a value whose
expiration equals the current time is expired. -/
theorem C8_is_valid_characterization :
    (∀ (v : StoredValue) (t : Nat),
      v.is_valid t = true ↔ (v.expiration = none ∨ ∃ e, v.expiration = some e ∧ t < e)) ∧
    (∀ (d : List Nat) (ver : Nat) (ln : SocketAddr) (rep : Bool)
      (ons : List SocketAddr) (t : Nat),
      StoredValue.is_valid (StoredValue.mk d ver ln rep (some t) ons) t = false) := by
  constructor
  · intro v t
    cases h : v.expiration with
    | none => simp [StoredValue.is_valid, h]
    | some e => simp [StoredValue.is_valid, h]
  · intro d ver ln rep ons t
    simp [StoredValue.is_valid]

/-- C9: `create_stored_value data addr is_replica ttl` fills every field as
described: `data` is the given bytes, `version` the current time,
`last_node` the given address, `expiration` is `now + ttl` when a ttl is
given and absent otherwise, and `original_nodes` is empty for a replica and
`[addr]` otherwise. -/
theorem C9_create_stored_value_fields :
    ∀ (now : Nat) (data : List Nat) (addr : SocketAddr) (is_replica : Bool)
      (ttl : Option Nat),
      (create_stored_value now data addr is_replica ttl).data = data ∧
      (create_stored_value now data addr is_replica ttl).version = now ∧
      (create_stored_value now data addr is_replica ttl).last_node = addr ∧
      (create_stored_value now data addr is_replica ttl).is_replica = is_replica ∧
      (∀ t, ttl = some t →
        (create_stored_value now data addr is_replica ttl).expiration = some (now + t)) ∧
      (ttl = none → (create_stored_value now data addr is_replica ttl).expiration = none) ∧
      (is_replica = true → (create_stored_value now data addr is_replica ttl).original_nodes = []) ∧
      (is_replica = false →
        (create_stored_value now data addr is_replica ttl).original_nodes = [addr]) := by
  intro now data addr is_replica ttl
  refine ⟨rfl, rfl, rfl, rfl, ?_, ?_, ?_, ?_⟩
  · intro t ht
    simp [create_stored_value, ht]
  · intro ht
    simp [create_stored_value, ht]
  · intro h
    simp [create_stored_value, h]
  · intro h
    simp [create_stored_value, h]

/-- Witness for C9 at a concrete input. -/
theorem C9_witness :
    (create_stored_value 100 [1, 2] sampleAddr1 false (some 60)).expiration = some 160 ∧
    (create_stored_value 100 [1, 2] sampleAddr1 false (some 60)).original_nodes = [sampleAddr1] :=
  ⟨(C9_create_stored_value_fields 100 [1, 2] sampleAddr1 false (some 60)).2.2.2.2.1 60 rfl,
   (C9_create_stored_value_fields 100 [1, 2] sampleAddr1 false (some 60)).2.2.2.2.2.2.2 rfl⟩

/-- C7 counterexample: two `PeerInfo` values with the same id but different
`last_seen` are unequal under the derived equality, so equality is not
determined by the id alone. -/
theorem C7_counterexample :
    (PeerInfo.mk (NodeId.mk [1]) sampleAddr1 0).id = (PeerInfo.mk (NodeId.mk [1]) sampleAddr1 5).id ∧
    PeerInfo.eq (PeerInfo.mk (NodeId.mk [1]) sampleAddr1 0)
      (PeerInfo.mk (NodeId.mk [1]) sampleAddr1 5) = false := by
  constructor
  · rfl
  · decide

/-- C7 amended: the derived `PeerInfo` equality is structural — `p == q`
holds iff the `id`, `addr` and `last_seen` fields are all equal (not the
id alone). -/
theorem C7_eq_iff_all_fields :
    ∀ p q : PeerInfo,
      PeerInfo.eq p q = true ↔ (p.id = q.id ∧ p.addr = q.addr ∧ p.last_seen = q.last_seen) := by
  intro p q
  simp [PeerInfo.eq, and_assoc]

/-- C6: the code appends the most recently updated peer at the END of the
peer vector, so `get_peers` lists peers from least-recently-seen (front) to
most-recently-seen (back); at the failing input below the peer most
recently passed to `update_peer` (`samplePeer2`) appears LAST, not first,
contradicting the claimed (and doc-commented) most-recent-first order. -/
theorem C6_most_recent_is_last :
    (((KBucket.mk [] 2).update_peer samplePeer1).update_peer samplePeer2).get_peers
      = [samplePeer1, samplePeer2] ∧ samplePeer1 ≠ samplePeer2 := by
  constructor
  · rfl
  · decide

/-- Branch characterization of `update_peer`: remove all entries carrying
the incoming id, then append the peer exactly when the retained length is
below `max_size`. -/
theorem update_peer_eq (b : KBucket) (p : PeerInfo) :
    b.update_peer p =
      (if (b.peers.filter (fun q => q.id ≠ p.id)).length < b.max_size
       then KBucket.mk (b.peers.filter (fun q => q.id ≠ p.id) ++ [p]) b.max_size
       else KBucket.mk (b.peers.filter (fun q => q.id ≠ p.id)) b.max_size) := by
  have hd : b.update_peer p =
      (if b.max_size ≤ (b.peers.filter (fun q => q.id ≠ p.id)).length
       then KBucket.mk (b.peers.filter (fun q => q.id ≠ p.id)) b.max_size
       else KBucket.mk (b.peers.filter (fun q => q.id ≠ p.id) ++ [p]) b.max_size) := rfl
  rw [hd]
  by_cases h : (b.peers.filter (fun q => q.id ≠ p.id)).length < b.max_size
  · rw [if_neg (by omega), if_pos h]
  · rw [if_pos (by omega), if_neg h]

/-- Every element of the retained list has an id different from the
incoming peer's id. -/
theorem mem_kept_ne (b : KBucket) (p : PeerInfo) :
    ∀ q ∈ b.peers.filter (fun r => r.id ≠ p.id), q.id ≠ p.id := by
  intro q hq
  have h := (List.mem_filter.mp hq).2
  simpa using h

/-- If some entry of the bucket carries the incoming id, the retained list
is strictly shorter than the bucket. -/
theorem kept_length_lt (b : KBucket) (p : PeerInfo) (h : p.id ∈ b.ids) :
    (b.peers.filter (fun q => q.id ≠ p.id)).length < b.peers.length := by
  obtain ⟨q, hq, hqid⟩ : ∃ q ∈ b.peers, q.id = p.id := by
    simpa [KBucket.ids] using h
  exact List.length_filter_lt_length_iff_exists.mpr ⟨q, hq, by simp [hqid]⟩

/-- Filtering the retained list by the same predicate changes nothing. -/
theorem kept_filter_idem (b : KBucket) (p : PeerInfo) :
    (b.peers.filter (fun q => q.id ≠ p.id)).filter (fun q => q.id ≠ p.id)
      = b.peers.filter (fun q => q.id ≠ p.id) := by
  refine List.filter_eq_self.mpr ?_
  intro a ha
  simpa using mem_kept_ne b p a ha

/-- The retained list contains no entry counted by the incoming id. -/
theorem kept_countP_zero (b : KBucket) (p : PeerInfo) :
    (b.peers.filter (fun q => q.id ≠ p.id)).countP (fun r => r.id = p.id) = 0 := by
  refine List.countP_eq_zero.mpr ?_
  intro a ha
  simpa using mem_kept_ne b p a ha

/-- C4: `update_peer` removes any entry with the incoming id and then
appends the peer exactly when the resulting length is below `max_size`
(first conjunct); hence at capacity an update with a new id leaves the
bucket unchanged (second conjunct), while an update with an id already
present replaces that entry: the old entry is removed and the incoming
peer is appended, all other entries kept in order (third conjunct). -/
theorem C4_update_peer_spec :
    ∀ (b : KBucket) (p : PeerInfo),
      (b.update_peer p =
        (if (b.peers.filter (fun q => q.id ≠ p.id)).length < b.max_size
         then KBucket.mk (b.peers.filter (fun q => q.id ≠ p.id) ++ [p]) b.max_size
         else KBucket.mk (b.peers.filter (fun q => q.id ≠ p.id)) b.max_size)) ∧
      (b.peers.length = b.max_size → (∀ q ∈ b.peers, q.id ≠ p.id) →
        b.update_peer p = b) ∧
      (b.peers.length ≤ b.max_size → p.id ∈ b.ids →
        (b.update_peer p).peers = b.peers.filter (fun q => q.id ≠ p.id) ++ [p]) := by
  intro b p
  refine ⟨update_peer_eq b p, ?_, ?_⟩
  · intro hlen hnew
    have hfil : b.peers.filter (fun q => q.id ≠ p.id) = b.peers := by
      refine List.filter_eq_self.mpr ?_
      intro a ha
      simpa using hnew a ha
    rw [update_peer_eq, hfil, hlen]
    simp
  · intro hle hmem
    have hlt : (b.peers.filter (fun q => q.id ≠ p.id)).length < b.max_size :=
      lt_of_lt_of_le (kept_length_lt b p hmem) hle
    rw [update_peer_eq, if_pos hlt]

/-- Witness for C4: a full bucket of two peers is unchanged by an update
with a fresh id, and an update carrying an existing id replaces that
entry. -/
theorem C4_witness :
    ((KBucket.mk [samplePeer1, samplePeer2] 2).update_peer samplePeer3
       = KBucket.mk [samplePeer1, samplePeer2] 2) ∧
    ((KBucket.mk [samplePeer1, samplePeer2] 2).update_peer
        (PeerInfo.mk (NodeId.mk [1]) sampleAddr2 99)).peers
       = ([samplePeer1, samplePeer2].filter
            (fun q => q.id ≠ (PeerInfo.mk (NodeId.mk [1]) sampleAddr2 99).id)
          ++ [PeerInfo.mk (NodeId.mk [1]) sampleAddr2 99]) :=
  ⟨(C4_update_peer_spec (KBucket.mk [samplePeer1, samplePeer2] 2) samplePeer3).2.1
      (by decide) (by decide),
   (C4_update_peer_spec (KBucket.mk [samplePeer1, samplePeer2] 2)
      (PeerInfo.mk (NodeId.mk [1]) sampleAddr2 99)).2.2 (by decide) (by decide)⟩

/-- C5 counterexample: a full one-slot bucket satisfying the claimed
preconditions (length within capacity, no duplicate ids) drops a new peer
on both updates, so after applying `update_peer` twice with the same peer
the bucket holds ZERO entries with that id, not exactly one. -/
theorem C5_counterexample :
    (KBucket.mk [samplePeer1] 1).peers.length ≤ (KBucket.mk [samplePeer1] 1).max_size ∧
    (KBucket.mk [samplePeer1] 1).ids.Nodup ∧
    ¬ ((((KBucket.mk [samplePeer1] 1).update_peer samplePeer2).update_peer
          samplePeer2).peers.countP (fun r => r.id = samplePeer2.id) = 1) := by
  refine ⟨by decide, by decide, by decide⟩

/-- The insert branch of `update_peer`. -/
theorem update_peer_insert (b : KBucket) (p : PeerInfo)
    (h : (b.peers.filter (fun q => q.id ≠ p.id)).length < b.max_size) :
    b.update_peer p = KBucket.mk (b.peers.filter (fun q => q.id ≠ p.id) ++ [p]) b.max_size := by
  rw [update_peer_eq, if_pos h]

/-- The discard branch of `update_peer`. -/
theorem update_peer_drop (b : KBucket) (p : PeerInfo)
    (h : ¬ (b.peers.filter (fun q => q.id ≠ p.id)).length < b.max_size) :
    b.update_peer p = KBucket.mk (b.peers.filter (fun q => q.id ≠ p.id)) b.max_size := by
  rw [update_peer_eq, if_neg h]

/-- Filtering the retained-plus-appended list again removes only the
appended peer. -/
theorem kept_append_filter (b : KBucket) (p : PeerInfo) :
    ((b.peers.filter (fun q => q.id ≠ p.id)) ++ [p]).filter (fun q => q.id ≠ p.id)
      = b.peers.filter (fun q => q.id ≠ p.id) := by
  rw [List.filter_append, kept_filter_idem]
  simp

/-- One `update_peer` leaves at most one entry with the incoming id:
exactly one when the retained length is below capacity, zero otherwise. -/
theorem update_peer_countP (b : KBucket) (p : PeerInfo) :
    (b.update_peer p).peers.countP (fun r => r.id = p.id) =
      (if (b.peers.filter (fun q => q.id ≠ p.id)).length < b.max_size then 1 else 0) := by
  by_cases h : (b.peers.filter (fun q => q.id ≠ p.id)).length < b.max_size
  · rw [update_peer_insert b p h, if_pos h]
    show ((b.peers.filter (fun q => q.id ≠ p.id)) ++ [p]).countP (fun r => r.id = p.id) = 1
    rw [List.countP_append, kept_countP_zero]
    simp
  · rw [update_peer_drop b p h, if_neg h]
    exact kept_countP_zero b p

/-- Applying `update_peer` twice with the same peer gives the same count as
applying it once. -/
theorem update_twice_countP (b : KBucket) (p : PeerInfo) :
    ((b.update_peer p).update_peer p).peers.countP (fun r => r.id = p.id) =
      (if (b.peers.filter (fun q => q.id ≠ p.id)).length < b.max_size then 1 else 0) := by
  rw [update_peer_countP]
  by_cases h : (b.peers.filter (fun q => q.id ≠ p.id)).length < b.max_size
  · rw [if_pos h, update_peer_insert b p h]
    show (if ((b.peers.filter (fun q => q.id ≠ p.id) ++ [p]).filter
        (fun q => q.id ≠ p.id)).length < b.max_size then 1 else 0) = 1
    rw [kept_append_filter b p, if_pos h]
  · rw [if_neg h, update_peer_drop b p h]
    show (if ((b.peers.filter (fun q => q.id ≠ p.id)).filter
        (fun q => q.id ≠ p.id)).length < b.max_size then 1 else 0) = 0
    rw [kept_filter_idem b p, if_neg h]

/-- The incoming id does not appear among the retained ids. -/
theorem pid_not_mem_kept (b : KBucket) (p : PeerInfo) :
    p.id ∉ (b.peers.filter (fun q => q.id ≠ p.id)).map (fun q => q.id) := by
  intro hmem
  obtain ⟨q, hq, hqe⟩ := List.mem_map.mp hmem
  exact mem_kept_ne b p q hq hqe

/-- The retained ids stay duplicate-free. -/
theorem kept_ids_nodup (b : KBucket) (p : PeerInfo) (hnd : b.ids.Nodup) :
    ((b.peers.filter (fun q => q.id ≠ p.id)).map (fun q => q.id)).Nodup :=
  List.Nodup.sublist (List.Sublist.map _ (List.filter_sublist b.peers)) hnd

/-- `update_peer` preserves duplicate-freedom of the ids. -/
theorem update_peer_ids_nodup (b : KBucket) (p : PeerInfo) (hnd : b.ids.Nodup) :
    (b.update_peer p).ids.Nodup := by
  by_cases h : (b.peers.filter (fun q => q.id ≠ p.id)).length < b.max_size
  · rw [update_peer_insert b p h]
    show (((b.peers.filter (fun q => q.id ≠ p.id)) ++ [p]).map (fun q => q.id)).Nodup
    rw [List.map_append]
    rw [List.nodup_append]
    refine ⟨kept_ids_nodup b p hnd, by simp, ?_⟩
    intro x hx hx2
    simp only [List.map_cons, List.map_nil, List.mem_singleton] at hx2
    rw [hx2] at hx
    exact pid_not_mem_kept b p hx
  · rw [update_peer_drop b p h]
    exact kept_ids_nodup b p hnd

/-- If the incoming id is absent from the bucket, `retain` removes
nothing. -/
theorem kept_of_not_mem (b : KBucket) (p : PeerInfo) (hnot : p.id ∉ b.ids) :
    b.peers.filter (fun q => q.id ≠ p.id) = b.peers := by
  refine List.filter_eq_self.mpr ?_
  intro a ha
  simp only [ne_eq, decide_not, Bool.not_eq_eq_eq_not, Bool.not_true, decide_eq_false_iff_not]
  intro heq
  exact hnot (List.mem_map.mpr ⟨a, ha, heq⟩)

/-- C5 amended: on a bucket within capacity and free of duplicate ids,
`update_peer` preserves both invariants; applying `update_peer` twice with
the same peer leaves exactly one entry with that id when the id was
already present or the bucket had room, and zero entries when a full
bucket receives a new id (both updates drop the peer). -/
theorem C5_update_peer_invariant :
    ∀ (b : KBucket) (p : PeerInfo),
      b.ids.Nodup → b.peers.length ≤ b.max_size →
      ((b.update_peer p).ids.Nodup ∧
       (b.update_peer p).peers.length ≤ (b.update_peer p).max_size ∧
       ((p.id ∈ b.ids ∨ b.peers.length < b.max_size) →
         ((b.update_peer p).update_peer p).peers.countP (fun r => r.id = p.id) = 1) ∧
       (p.id ∉ b.ids → b.peers.length = b.max_size →
         ((b.update_peer p).update_peer p).peers.countP (fun r => r.id = p.id) = 0)) := by
  intro b p hnd hle
  have hfl : (b.peers.filter (fun q => q.id ≠ p.id)).length ≤ b.peers.length :=
    (List.filter_sublist b.peers).length_le
  refine ⟨update_peer_ids_nodup b p hnd, ?_, ?_, ?_⟩
  · by_cases h : (b.peers.filter (fun q => q.id ≠ p.id)).length < b.max_size
    · rw [update_peer_insert b p h]
      show ((b.peers.filter (fun q => q.id ≠ p.id)) ++ [p]).length ≤ b.max_size
      rw [List.length_append]
      simp only [List.length_cons, List.length_nil]
      omega
    · rw [update_peer_drop b p h]
      show (b.peers.filter (fun q => q.id ≠ p.id)).length ≤ b.max_size
      omega
  · intro hyp
    rw [update_twice_countP]
    refine if_pos ?_
    rcases hyp with hmem | hlt2
    · exact lt_of_lt_of_le (kept_length_lt b p hmem) hle
    · omega
  · intro hnot hfull
    rw [update_twice_countP]
    refine if_neg ?_
    rw [kept_of_not_mem b p hnot]
    omega

/-- Witness for C5 at a concrete input: a bucket with room receives the
same peer twice and ends with exactly one entry carrying that id. -/
theorem C5_witness :
    ((KBucket.mk [samplePeer1] 2).update_peer samplePeer2).ids.Nodup ∧
    ((KBucket.mk [samplePeer1] 2).update_peer samplePeer2).peers.length
        ≤ ((KBucket.mk [samplePeer1] 2).update_peer samplePeer2).max_size ∧
    (((KBucket.mk [samplePeer1] 2).update_peer samplePeer2).update_peer
        samplePeer2).peers.countP (fun r => r.id = samplePeer2.id) = 1 :=
  have h := C5_update_peer_invariant (KBucket.mk [samplePeer1] 2) samplePeer2
    (by decide) (by decide)
  ⟨h.1, h.2.1, h.2.2.1 (Or.inr (by decide))⟩

/-- Accumulator form of the replication loop: starting from `s0` successes
and `f0` recorded failures, the loop adds one success per peer that is
self or answers `Ok`, and one failure per other peer. -/
theorem replicate_to_peers_store_acc (self_addr : SocketAddr)
    (outcome : SocketAddr → StoreRpcOutcome) :
    ∀ (peers : List PeerInfo) (s0 f0 : Nat),
      replicate_to_peers_store self_addr outcome peers s0 f0 =
        (s0 + peers.countP (fun p => p.addr = self_addr ∨ outcome p.addr = StoreRpcOutcome.ok),
         f0 + peers.countP (fun p => p.addr ≠ self_addr ∧ outcome p.addr ≠ StoreRpcOutcome.ok)) := by
  intro peers
  induction peers with
  | nil =>
    intro s0 f0
    simp [replicate_to_peers_store]
  | cons p rest ih =>
    intro s0 f0
    by_cases ha : p.addr = self_addr
    · have hstep : replicate_to_peers_store self_addr outcome (p :: rest) s0 f0
          = replicate_to_peers_store self_addr outcome rest (s0 + 1) f0 := by
        simp [replicate_to_peers_store, ha]
      rw [hstep, ih, List.countP_cons, List.countP_cons]
      simp only [Prod.mk.injEq]
      constructor
      · simp [ha]
        omega
      · simp [ha]
    · cases ho : outcome p.addr with
      | ok =>
        have hstep : replicate_to_peers_store self_addr outcome (p :: rest) s0 f0
            = replicate_to_peers_store self_addr outcome rest (s0 + 1) f0 := by
          simp [replicate_to_peers_store, ha, send_store_rpc, ho]
        rw [hstep, ih, List.countP_cons, List.countP_cons]
        simp only [Prod.mk.injEq]
        constructor
        · simp [ho]
          omega
        · simp [ho]
      | rpcErr =>
        have hstep : replicate_to_peers_store self_addr outcome (p :: rest) s0 f0
            = replicate_to_peers_store self_addr outcome rest s0 (f0 + 1) := by
          simp [replicate_to_peers_store, ha, send_store_rpc, ho]
        rw [hstep, ih, List.countP_cons, List.countP_cons]
        simp only [Prod.mk.injEq]
        constructor
        · simp [ha, ho]
        · simp [ha, ho]
          omega
      | timedOut =>
        have hstep : replicate_to_peers_store self_addr outcome (p :: rest) s0 f0
            = replicate_to_peers_store self_addr outcome rest s0 (f0 + 1) := by
          simp [replicate_to_peers_store, ha, send_store_rpc, ho]
        rw [hstep, ih, List.countP_cons, List.countP_cons]
        simp only [Prod.mk.injEq]
        constructor
        · simp [ha, ho]
        · simp [ha, ho]
          omega

/-- C2: over any list of selected peers, a peer equal to the node's own
address is skipped and counted as a success; every other peer's failed or
timed-out Store RPC adds one to `rpc_failures` without aborting the
iteration; the returned success count is exactly the number of peers that
were self or whose RPC succeeded. -/
theorem C2_replication_success_count :
    ∀ (self_addr : SocketAddr) (outcome : SocketAddr → StoreRpcOutcome)
      (peers : List PeerInfo) (f0 : Nat),
      replicate_to_peers_store self_addr outcome peers 0 f0 =
        (peers.countP (fun p => p.addr = self_addr ∨ outcome p.addr = StoreRpcOutcome.ok),
         f0 + peers.countP (fun p => p.addr ≠ self_addr ∧ outcome p.addr ≠ StoreRpcOutcome.ok)) := by
  intro self_addr outcome peers f0
  rw [replicate_to_peers_store_acc]
  simp

/-- A sample stored value that is expired at time 10. -/
def sampleExpired : StoredValue := StoredValue.mk [5] 1 sampleAddr1 true (some 5) []

/-- A sample stored value with no expiration. -/
def sampleFresh : StoredValue := StoredValue.mk [6] 2 sampleAddr2 true none []

/-- A sample decoder: byte string `[3]` decodes to the expired value,
`[9]` to the fresh one, everything else is malformed. -/
def sampleDes : Bytes → Option StoredValue :=
  fun v => if v = [3] then some sampleExpired else if v = [9] then some sampleFresh else none

/-- A sample storage holding serialized bytes `[3]` under key `[7]`. -/
def sampleStorage : Storage := [([7], [3])]

/-- C3: `find_value` filtering.  Locally: an entry that deserializes but is
invalid at the current time is removed and contributes nothing (conjunct
1); a valid one contributes its value and leaves storage untouched
(conjunct 2); a malformed or absent entry contributes nothing and leaves
storage untouched — removal happens only in the deserializes-but-expired
case (conjuncts 3 and 4).  From a peer: a `FindValueResponse` payload
contributes exactly when it deserializes to a value whose `is_valid(now)`
holds (conjunct 5); expired, malformed, absent payloads and RPC errors
contribute nothing (conjuncts 6 to 9). -/
theorem C3_find_value_filtering :
    ∀ (des : Bytes → Option StoredValue) (now : Nat) (storage : Storage)
      (fv : List StoredValue) (key : Bytes) (response : FindRpcResult)
      (failures : Nat),
      (∀ v sv, Storage.get storage key = some v → des v = some sv →
        sv.is_valid now = false →
        find_in_local_storage des now storage fv key = (Storage.remove storage key, fv)) ∧
      (∀ v sv, Storage.get storage key = some v → des v = some sv →
        sv.is_valid now = true →
        find_in_local_storage des now storage fv key = (storage, fv ++ [sv])) ∧
      (∀ v, Storage.get storage key = some v → des v = none →
        find_in_local_storage des now storage fv key = (storage, fv)) ∧
      (Storage.get storage key = none →
        find_in_local_storage des now storage fv key = (storage, fv)) ∧
      (∀ data sv, response = Except.ok (DhtRpc.FindValueResponse (some data)) →
        des data = some sv → sv.is_valid now = true →
        send_find_rpc des now response fv failures = (fv ++ [sv], failures, Except.ok ())) ∧
      (∀ data sv, response = Except.ok (DhtRpc.FindValueResponse (some data)) →
        des data = some sv → sv.is_valid now = false →
        send_find_rpc des now response fv failures = (fv, failures, Except.ok ())) ∧
      (∀ data, response = Except.ok (DhtRpc.FindValueResponse (some data)) →
        des data = none →
        send_find_rpc des now response fv failures = (fv, failures, Except.ok ())) ∧
      (∀ r, response = Except.ok r → (∀ data, r ≠ DhtRpc.FindValueResponse (some data)) →
        send_find_rpc des now response fv failures = (fv, failures, Except.ok ())) ∧
      (∀ e, response = Except.error e →
        send_find_rpc des now response fv failures = (fv, failures + 1, Except.error ())) := by
  intro des now storage fv key response failures
  refine ⟨?_, ?_, ?_, ?_, ?_, ?_, ?_, ?_, ?_⟩
  · intro v sv hget hdes hval
    simp [find_in_local_storage, hget, hdes, hval]
  · intro v sv hget hdes hval
    simp [find_in_local_storage, hget, hdes, hval]
  · intro v hget hdes
    simp [find_in_local_storage, hget, hdes]
  · intro hget
    simp [find_in_local_storage, hget]
  · intro data sv hresp hdes hval
    simp [send_find_rpc, hresp, hdes, hval]
  · intro data sv hresp hdes hval
    simp [send_find_rpc, hresp, hdes, hval]
  · intro data hresp hdes
    simp [send_find_rpc, hresp, hdes]
  · intro r hresp hne
    rw [hresp]
    cases r with
    | FindValueResponse od =>
      cases od with
      | none => simp [send_find_rpc]
      | some data => exact absurd rfl (hne data)
    | Ping => simp [send_find_rpc]
    | Pong => simp [send_find_rpc]
    | FindNode id => simp [send_find_rpc]
    | FindNodeResponse ps => simp [send_find_rpc]
    | FindValue k => simp [send_find_rpc]
    | Store k v => simp [send_find_rpc]
  · intro e hresp
    simp [send_find_rpc, hresp]

/-- Witness for C3: the expired local entry under key `[7]` is removed and
yields nothing, and a peer response decoding to a valid value is
accumulated. -/
theorem C3_witness :
    find_in_local_storage sampleDes 10 sampleStorage [] [7]
        = (Storage.remove sampleStorage [7], []) ∧
    send_find_rpc sampleDes 10 (Except.ok (DhtRpc.FindValueResponse (some [9]))) [] 0
        = ([sampleFresh], 0, Except.ok ()) :=
  ⟨(C3_find_value_filtering sampleDes 10 sampleStorage [] [7]
      (Except.ok (DhtRpc.FindValueResponse (some [9]))) 0).1 [3] sampleExpired
      (by decide) (by decide) (by decide),
   (C3_find_value_filtering sampleDes 10 sampleStorage [] [7]
      (Except.ok (DhtRpc.FindValueResponse (some [9]))) 0).2.2.2.2.1 [9] sampleFresh
      rfl (by decide) (by decide)⟩

/-- Reading back the vector just written for an address. -/
theorem entries_set_same (m : IdleMap) (a : SocketAddr) (es : List ConnectionEntry) :
    IdleMap.entries (IdleMap.setEntries m a es) a = es := by
  unfold IdleMap.entries IdleMap.setEntries
  rw [List.find?_cons_of_pos _ (by simp)]

/-- A lookup for an address other than `a` ignores entries filtered on
`a`. -/
theorem find_filter_ne (a b : SocketAddr) (h : b ≠ a) :
    ∀ (m : IdleMap),
      (m.filter (fun e => e.1 ≠ a)).find? (fun e => e.1 = b)
        = m.find? (fun e => e.1 = b) := by
  intro m
  induction m with
  | nil => simp
  | cons e rest ih =>
    by_cases he : e.1 = a
    · rw [List.filter_cons_of_neg (by simp [he]), ih,
        List.find?_cons_of_neg rest (by
          simp only [decide_eq_true_eq]
          intro hh
          exact h (by rw [← hh, he]))]
    · rw [List.filter_cons_of_pos (by simp [he])]
      by_cases hb : e.1 = b
      · rw [List.find?_cons_of_pos _ (by simp [hb]), List.find?_cons_of_pos _ (by simp [hb])]
      · rw [List.find?_cons_of_neg _ (by simp [hb]), List.find?_cons_of_neg _ (by simp [hb])]
        exact ih

/-- Writing the vector of address `a` leaves other addresses untouched. -/
theorem entries_set_other (m : IdleMap) (a b : SocketAddr) (es : List ConnectionEntry)
    (h : b ≠ a) :
    IdleMap.entries (IdleMap.setEntries m a es) b = IdleMap.entries m b := by
  unfold IdleMap.entries IdleMap.setEntries
  rw [List.find?_cons_of_neg]
  · rw [find_filter_ne a b h m]
  · simp only [decide_eq_true_eq]
    intro hh
    exact h hh.symm

/-- `return_connection` pushes the entry at the end of the vector of its
address. -/
theorem return_connection_same (m : IdleMap) (now : Nat) (a : SocketAddr) (s : TcpStream) :
    IdleMap.entries (return_connection m now a s) a
      = IdleMap.entries m a ++ [ConnectionEntry.mk s now] := by
  unfold return_connection
  rw [entries_set_same]

/-- `return_connection` does not touch other addresses. -/
theorem return_connection_other (m : IdleMap) (now : Nat) (a b : SocketAddr)
    (s : TcpStream) (h : b ≠ a) :
    IdleMap.entries (return_connection m now a s) b = IdleMap.entries m b := by
  unfold return_connection
  rw [entries_set_other m a b _ h]

/-- The pop loop hands out only entries that are fresh and alive. -/
theorem pop_healthy_rev_sound (now max_idle : Nat) :
    ∀ (l : List ConnectionEntry) (e : ConnectionEntry),
      (pop_healthy_rev now max_idle l).1 = some e →
      e.stream.healthy = true ∧ now - e.last_used < max_idle := by
  intro l
  induction l with
  | nil =>
    intro e he
    simp [pop_healthy_rev] at he
  | cons x rest ih =>
    intro e he
    simp only [pop_healthy_rev] at he
    by_cases hc : (decide (now - x.last_used < max_idle) && x.stream.healthy) = true
    · rw [if_pos hc] at he
      simp only [Option.some.injEq] at he
      simp only [Bool.and_eq_true] at hc
      rcases hc with ⟨h1, h2⟩
      subst he
      exact ⟨h2, by simpa using h1⟩
    · rw [if_neg hc] at he
      exact ih e he

/-- `try_get_healthy_connection` hands out only entries that are fresh and
alive. -/
theorem try_get_healthy_sound (now max_idle : Nat) (es : List ConnectionEntry)
    (e : ConnectionEntry)
    (h : (try_get_healthy_connection now max_idle es).1 = some e) :
    e.stream.healthy = true ∧ now - e.last_used < max_idle := by
  unfold try_get_healthy_connection at h
  exact pop_healthy_rev_sound now max_idle es.reverse e h

/-- C1 counterexample: dropping a `PooledConnection` holding an unhealthy
stream (one in an indeterminate state, as after an RPC timeout) places that
very stream in the pool's idle list for its address — the claimed
"only if healthy"/"never on timeout" guard does not exist in the code. -/
theorem C1_counterexample :
    (TcpStream.mk 0 false).healthy = false ∧
    IdleMap.entries
        (PooledConnection.drop
          (PooledConnection.mk (some (PooledConnectionInner.mk (TcpStream.mk 0 false) sampleAddr1)))
          [] 42) sampleAddr1
      = [ConnectionEntry.mk (TcpStream.mk 0 false) 42] := by
  constructor
  · rfl
  · decide

/-- C1 amended: dropping a live `PooledConnection` unconditionally appends
its stream to the idle list of its address, healthy or not (conjuncts 1
and 2); health and idle-age are instead checked at acquisition time —
`try_get_healthy_connection` never hands back a stale or dead stream
(conjunct 3). -/
theorem C1_drop_always_returns :
    ∀ (m : IdleMap) (now : Nat) (s : TcpStream) (a : SocketAddr),
      (IdleMap.entries
          (PooledConnection.drop
            (PooledConnection.mk (some (PooledConnectionInner.mk s a))) m now) a
        = IdleMap.entries m a ++ [ConnectionEntry.mk s now]) ∧
      (∀ b, b ≠ a →
        IdleMap.entries
            (PooledConnection.drop
              (PooledConnection.mk (some (PooledConnectionInner.mk s a))) m now) b
          = IdleMap.entries m b) ∧
      (∀ (max_idle : Nat) (es : List ConnectionEntry) (e : ConnectionEntry),
        (try_get_healthy_connection now max_idle es).1 = some e →
        e.stream.healthy = true ∧ now - e.last_used < max_idle) := by
  intro m now s a
  refine ⟨?_, ?_, ?_⟩
  · show IdleMap.entries (return_connection m now a s) a = _
    exact return_connection_same m now a s
  · intro b hb
    show IdleMap.entries (return_connection m now a s) b = _
    exact return_connection_other m now a b s hb
  · intro max_idle es e he
    exact try_get_healthy_sound now max_idle es e he

/-- Witness for C1 at concrete inputs: dropping to an empty pool leaves
other addresses empty, and acquisition hands back the fresh healthy entry
of a two-entry vector. -/
theorem C1_witness :
    (IdleMap.entries
        (PooledConnection.drop
          (PooledConnection.mk (some (PooledConnectionInner.mk (TcpStream.mk 2 true) sampleAddr1)))
          [] 10) sampleAddr2 = IdleMap.entries ([] : IdleMap) sampleAddr2) ∧
    ((ConnectionEntry.mk (TcpStream.mk 2 true) 8).stream.healthy = true ∧
      10 - (ConnectionEntry.mk (TcpStream.mk 2 true) 8).last_used < 30) :=
  have h := C1_drop_always_returns [] 10 (TcpStream.mk 2 true) sampleAddr1
  ⟨h.2.1 sampleAddr2 (by decide),
   h.2.2 30 [ConnectionEntry.mk (TcpStream.mk 1 false) 0, ConnectionEntry.mk (TcpStream.mk 2 true) 8]
     (ConnectionEntry.mk (TcpStream.mk 2 true) 8) (by decide)⟩

/-- A single pool step preserves the permit-accounting equation: free
permits plus outstanding connections stay constant. -/
theorem poolStep_preserves (s t : PoolSt) (n : Nat) (hstep : PoolStep s t)
    (hinv : s.available + s.outstanding.length = n) :
    t.available + t.outstanding.length = n := by
  cases hstep with
  | acquire a s h =>
    show s.available - 1 + (a :: s.outstanding).length = n
    rw [List.length_cons]
    omega
  | release a s h =>
    show s.available + 1 + (s.outstanding.erase a).length = n
    rw [List.length_erase_of_mem h]
    have hp := List.length_pos_of_mem h
    omega

/-- C10: the pool holds one semaphore with `max_connections_per_peer`
permits shared by every destination address; in every reachable pool state
the free permits and the outstanding connections (summed over ALL remote
addresses) add up to the cap, so the total outstanding count never exceeds
it, and once it is reached no acquisition — to any address — can proceed:
the cap is pool-wide, and connections held to one address consume the
capacity of every other address. -/
theorem C10_pool_wide_cap :
    ∀ (n : Nat) (s : PoolSt), PoolReachable n s →
      (s.available + s.outstanding.length = n ∧
       s.outstanding.length ≤ n ∧
       (s.outstanding.length = n → ¬ 0 < s.available)) := by
  intro n s h
  have hinv : s.available + s.outstanding.length = n := by
    induction h with
    | refl => rfl
    | tail hrt hstep ih => exact poolStep_preserves _ _ n hstep ih
  refine ⟨hinv, by omega, ?_⟩
  intro hfull
  omega

/-- Witness for C10: with a cap of 2, two acquisitions to the SAME address
reach a state where the accounting equation holds, the total is at the
cap, and no permit is left for any address. -/
theorem C10_witness :
    (PoolSt.mk 0 [sampleAddr1, sampleAddr1]).available
        + (PoolSt.mk 0 [sampleAddr1, sampleAddr1]).outstanding.length = 2 ∧
    (PoolSt.mk 0 [sampleAddr1, sampleAddr1]).outstanding.length ≤ 2 ∧
    ((PoolSt.mk 0 [sampleAddr1, sampleAddr1]).outstanding.length = 2 →
      ¬ 0 < (PoolSt.mk 0 [sampleAddr1, sampleAddr1]).available) :=
  C10_pool_wide_cap 2 (PoolSt.mk 0 [sampleAddr1, sampleAddr1])
    (Relation.ReflTransGen.tail
      (Relation.ReflTransGen.tail Relation.ReflTransGen.refl
        (PoolStep.acquire sampleAddr1 (ConnectionPool.init 2) (by decide)))
      (PoolStep.acquire sampleAddr1 (PoolSt.mk 1 [sampleAddr1]) (by decide)))

end Dht
